import Mathlib

/-!
Shallow embedding of `MDI_EF_Analysis.py`, the ELECTRIC driver script.

The script drives an MDI engine: after a handshake it queries atom,
multipole, molecule and residue information, resolves probe atoms to
multipole ("pole") indices, registers the probes with the engine, checks
the snapshot file against the engine, then streams trajectory frames,
asking the engine for the pairwise DFIELD and UFIELD tensors at each
frame and reducing them to per-fragment sums.

Conventions of the embedding:
* Machine floats are modelled by `ℤ`: the script never inspects a
  field or coordinate value, it only multiplies coordinates by one
  fixed conversion factor and sums field components, so any exact
  scalar ring carries the same data flow (float rounding itself is out
  of scope).
* The Python indexing operation `l[i]` on a list or a numpy axis is
  modelled by `pyGet?`, which returns `none` exactly when Python raises
  `IndexError` (negative indices wrap from the end, as in Python/numpy).
* A Python list comprehension whose body may raise is modelled by
  `optMap`.
* The engine interaction is recorded as a trace of `Event`s:
  `MDI_Send_Command` is `Event.cmd tok`, `MDI_Send` is `Event.send`,
  `MDI_Recv` is `Event.recv`.
* Values read from files or received from the engine are inputs of the
  model (the `Setup` structure); parsing of the first two snapshot
  lines is abstracted to the two numbers the script extracts from them,
  and file lines are modelled by their numeric fields (the script only
  ever reads columns 2-4 of atom lines).
-/

abbrev Vec3 : Type := ℤ × ℤ × ℤ

/-- One recorded interaction with the engine communicator. -/
inductive Event where
  | cmd (token : String)
  | send
  | recv
deriving DecidableEq

/-- Python list indexing `l[i]`: negative indices wrap from the end,
out-of-range indices raise `IndexError` (here: `none`). -/
def pyGet? (l : List α) (i : Int) : Option α :=
  if 0 ≤ i then l.get? i.toNat
  else if -(l.length : Int) ≤ i then l.get? (l.length - (-i).toNat)
  else none

/-- A Python list comprehension whose body may raise: the whole
comprehension fails (`none`) if any element fails. -/
def optMap (f : α → Option β) : List α → Option (List β)
  | [] => some []
  | x :: xs =>
    match f x, optMap f xs with
    | some y, some ys => some (y :: ys)
    | _, _ => none

def vecAdd (a b : Vec3) : Vec3 := (a.1 + b.1, a.2.1 + b.2.1, a.2.2 + b.2.2)

def vecSum (l : List Vec3) : Vec3 := l.foldr vecAdd (0, 0, 0)

/-- `dfield[i, fragment-1].sum(axis=0)` (script lines 264 and 267):
select the rows of the probe's tensor slice at the fragment's pole
numbers minus one, and sum them elementwise; an empty selection sums to
the zero vector. -/
def field_at_probe_due_to_fragment (row : List Vec3) (fragment : List Int) : Option Vec3 :=
  (optMap (fun p => pyGet? row (p - 1)) fragment).map vecSum

/-- Script line 137: `[int(ipoles[atom_number-1]) for atom_number in probes]`. -/
def probe_pole_indices (probes ipoles : List Int) : Option (List Int) :=
  optMap (fun p => pyGet? ipoles (p - 1)) probes

/-- `np.unique`: the sorted list of distinct values. -/
def npUnique (l : List Int) : List Int := List.insertionSort (fun a b => a ≤ b) l.dedup

/-- `np.array(np.where(ids == u)) + 1` (script lines 148 and 158): the
1-based atom numbers whose membership id equals `u`. -/
def fragmentAtoms (ids : List Int) (u : Int) : List Nat :=
  ((List.range ids.length).filter (fun a => decide (ids.getD a 0 = u))).map (fun a => a + 1)

/-- Script lines 145-152 (and the identical 155-162 for residues): for
each sorted unique membership id, the pole numbers `ipoles[atom_index-1]`
of the atoms carrying that id. -/
def molFragments (ids ipoles : List Int) : Option (List (List Int)) :=
  optMap (fun u => optMap (fun (a : Nat) => pyGet? ipoles ((a : Int) - 1)) (fragmentAtoms ids u))
    (npUnique ids)

/-- All inputs of one run: the CLI arguments, the values the engine
reports during the information queries, the two numbers the script
parses from the snapshot file's first two lines, the snapshot file's
lines, and the per-frame field data the engine returns
(frame → probe → pole → 3-vector). -/
structure Setup where
  bymol : Bool
  byres : Bool
  probes : List Int
  engineName : String
  natoms_engine : Nat
  npoles : Nat
  ipoles : List Int
  molecules : List Int
  residues : List Int
  angstrom_to_bohr : ℤ
  natoms_snap : Nat
  secondLineLen : Nat
  fileBody : List (List ℤ)
  dfieldData : Nat → Nat → Nat → Vec3
  ufieldData : Nat → Nat → Nat → Vec3

/-- Script lines 143-168: the fragment pole-number lists
(`atoms_pole_numbers`). -/
def atoms_pole_numbers (s : Setup) : Option (List (List Int)) :=
  if s.bymol then molFragments s.molecules s.ipoles
  else if s.byres then molFragments s.residues s.ipoles
  else some (s.ipoles.map (fun x => [x]))

/-- Script lines 143-168: the fragment ids (`from_fragment`). -/
def from_fragment (s : Setup) : List Int :=
  if s.bymol then npUnique s.molecules
  else if s.byres then npUnique s.residues
  else (List.range s.natoms_engine).map (fun k => (k : Int) + 1)

/-- Script lines 195-201: two header lines per frame when the second
file line has 6 fields (periodic box information), otherwise one. -/
def skip_line (secondLineLen : Nat) : Nat := if secondLineLen = 6 then 2 else 1

/-- `pd.read_csv(..., chunksize=k)`: split the lines into consecutive
chunks of `k` (the last chunk may be shorter).  The fuel argument only
bounds the recursion; with `fuel ≥ l.length` and `k ≥ 1` (always the
case here, the chunk size is `natoms + skip_line ≥ 1`) it is never
exhausted. -/
def chunkList (k : Nat) : Nat → List α → List (List α)
  | _, [] => []
  | 0, x :: xs => [x :: xs]
  | fuel + 1, x :: xs => (x :: xs.take (k - 1)) :: chunkList k fuel (xs.drop (k - 1))

/-- Script lines 214-216: the stream of per-frame chunks of the snapshot
file (`skiprows=skip_line`, `chunksize=natoms+skip_line`). -/
def snapshotChunks (s : Setup) : List (List (List ℤ)) :=
  chunkList (s.natoms_snap + skip_line s.secondLineLen)
    (s.fileBody.drop (skip_line s.secondLineLen)).length
    (s.fileBody.drop (skip_line s.secondLineLen))

/-- Script lines 221-222: columns 2-4 of the first `natoms` chunk lines,
scaled by the length-unit conversion factor. -/
def snapshot_coords (s : Setup) (chunk : List (List ℤ)) : List Vec3 :=
  (chunk.take s.natoms_snap).map
    (fun line => (s.angstrom_to_bohr * line.getD 2 0,
                  s.angstrom_to_bohr * line.getD 3 0,
                  s.angstrom_to_bohr * line.getD 4 0))

/-- Script lines 234 and 239: the received tensor has shape
(number of probes, `npoles`, 3) by construction (`np.zeros` of that
shape, then `MDI_Recv` into the buffer). -/
def mkTensor (nprobes npoles : Nat) (d : Nat → Nat → Vec3) : List (List Vec3) :=
  (List.range nprobes).map (fun i => (List.range npoles).map (fun p => d i p))

/-- One output row (script lines 257-268): probe atom number, the stored
probe coordinate, and one aggregated 3-vector per fragment. -/
structure ResultRow where
  probeAtom : Int
  probeCoord : Vec3
  fragmentFields : List Vec3
deriving DecidableEq

/-- Script lines 257-268 for one probe index `i` and one field tensor.
The stored coordinate is `snapshot_coords[probes[i]]`, exactly as in
line 259. -/
def buildRow (probes : List Int) (coords : List Vec3) (frags : List (List Int))
    (tensor : List (List Vec3)) (i : Nat) : Option ResultRow :=
  match pyGet? coords (probes.getD i 0) with
  | none => none
  | some pc =>
    match optMap (fun frag => field_at_probe_due_to_fragment (tensor.getD i []) frag) frags with
    | none => none
    | some vals => some ⟨probes.getD i 0, pc, vals⟩

/-- Script lines 251-271: build one frame's `dfield_df` and `ufield_df`
tables (one row per probe, in probe order). -/
def buildTables (probes : List Int) (coords : List Vec3) (frags : List (List Int))
    (dfield ufield : List (List Vec3)) : Option (List ResultRow × List ResultRow) :=
  match optMap (buildRow probes coords frags dfield) (List.range probes.length),
        optMap (buildRow probes coords frags ufield) (List.range probes.length) with
  | some d, some u => some (d, u)
  | _, _ => none

/-- The body of one frame-loop iteration (script lines 218-271): extract
and convert the coordinates, fill the two field tensors with the
engine's frame-`k` replies, and build the two tables. -/
def frameTables (s : Setup) (frags : List (List Int)) (chunk : List (List ℤ)) (k : Nat) :
    Option (List ResultRow × List ResultRow) :=
  buildTables s.probes (snapshot_coords s chunk) frags
    (mkTensor s.probes.length s.npoles (s.dfieldData k))
    (mkTensor s.probes.length s.npoles (s.ufieldData k))

/-- The two events of `mdi_checks` (script lines 39-40). -/
def handshakeEvents : List Event := [Event.cmd "<NAME", Event.recv]

/-- Handshake plus the five information queries (script lines 100-119). -/
def preRegEvents : List Event :=
  handshakeEvents ++
    [Event.cmd "<NATOMS", Event.recv, Event.cmd "<NPOLES", Event.recv,
     Event.cmd "<IPOLES", Event.recv, Event.cmd "<MOLECULES", Event.recv,
     Event.cmd "<RESIDUES", Event.recv]

/-- Everything up to and including probe registration (script
lines 177-180). -/
def regEvents : List Event :=
  preRegEvents ++ [Event.cmd ">NPROBES", Event.send, Event.cmd ">PROBES", Event.send]

/-- The per-frame engine interaction (script lines 224-241). -/
def frameEvents : List Event :=
  [Event.cmd ">COORDS", Event.send, Event.cmd "<DFIELD", Event.recv,
   Event.cmd "<UFIELD", Event.recv]

/-- Script lines 214-271: the frame loop.  `dfield_df`/`ufield_df` are
rebuilt from scratch each iteration (the accumulator argument is
discarded on entry to an iteration), so the value surviving the loop is
the last frame's pair of tables.  In the result, the outer `none` means
an iteration raised mid-frame (after its engine events); `some acc`
means the loop ran to completion with final accumulator `acc`; `acc`
itself is `none` when there was no frame at all, in which case the
script's subsequent `to_csv` raises `NameError`. -/
def frameLoop (s : Setup) (frags : List (List Int)) :
    List (List (List ℤ)) → Nat → Option (List ResultRow × List ResultRow) →
      List Event × Option (Option (List ResultRow × List ResultRow))
  | [], _, acc => ([], some acc)
  | chunk :: rest, k, _ =>
    match frameTables s frags chunk k with
    | none => (frameEvents, none)
    | some tabs =>
      let r := frameLoop s frags rest (k + 1) (some tabs)
      (frameEvents ++ r.1, r.2)

/-- The whole script run (lines 54-282) as a function from the run
inputs to the event trace on the communicator and, on success, the
table pair written to `dfield.csv` / `ufield.csv`.  A `none` result
means the run raised an exception before reaching the final `EXIT`
command.  The branch order mirrors the script: the argument-conflict
check (line 85) precedes `mdi_checks` (line 88); the engine-name check
happens after `<NAME` is answered; probe resolution (line 137) and
fragment resolution (lines 143-168) happen after the information
queries and before probe registration (lines 177-180); the snapshot
compatibility check (lines 192-205) happens after registration and
before the frame loop. -/
def mainRun (s : Setup) : List Event × Option (List ResultRow × List ResultRow) :=
  if s.byres && s.bymol then ([], none)
  else if s.engineName ≠ "NO_EWALD" then (handshakeEvents, none)
  else
    match probe_pole_indices s.probes s.ipoles with
    | none => (preRegEvents, none)
    | some _ =>
      match atoms_pole_numbers s with
      | none => (preRegEvents, none)
      | some frags =>
        if s.natoms_snap ≠ s.natoms_engine then (regEvents, none)
        else
          match frameLoop s frags (snapshotChunks s) 0 none with
          | (ev, none) => (regEvents ++ ev, none)
          | (ev, some none) => (regEvents ++ ev, none)
          | (ev, some (some tabs)) => (regEvents ++ ev ++ [Event.cmd "EXIT"], some tabs)

/-- The partition facts for molecule/residue fragment resolution: one
fragment per distinct membership id, in sorted id order; the member
pole-number lists collectively use every atom's pole number exactly
once (multiset equality with `ipoles`); and every atom number lies in
exactly one fragment's atom group. -/
def molPartitionSpec (ids ipoles : List Int) : Prop :=
  ∃ frags, molFragments ids ipoles = some frags ∧
    frags.length = (npUnique ids).length ∧
    frags.flatten.Perm ipoles ∧
    (npUnique ids).Sorted (fun a b => a ≤ b) ∧
    (npUnique ids).Nodup ∧
    (∀ u, u ∈ npUnique ids ↔ u ∈ ids) ∧
    (∀ a, a < ids.length →
      ∃! j, ∃ hj : j < (npUnique ids).length,
        a + 1 ∈ fragmentAtoms ids ((npUnique ids).get ⟨j, hj⟩))

/-- A complete, error-free run on concrete data: one probe (atom 1), two
atoms, atom aggregation, one frame. -/
def okSetup : Setup where
  bymol := false
  byres := false
  probes := [1]
  engineName := "NO_EWALD"
  natoms_engine := 2
  npoles := 2
  ipoles := [1, 2]
  molecules := [1, 1]
  residues := [1, 1]
  angstrom_to_bohr := 1
  natoms_snap := 2
  secondLineLen := 1
  fileBody := [[2], [1, 0, 1, 2, 3, 0, 0, 0], [2, 0, 4, 5, 6, 0, 0, 0]]
  dfieldData := fun _ _ _ => (0, 0, 0)
  ufieldData := fun _ _ _ => (0, 0, 0)

/-- `okSetup` with an out-of-range probe atom number. -/
def badProbeSetup : Setup := { okSetup with probes := [99] }

/-- `okSetup` with both aggregation flags requested. -/
def bothFlagsSetup : Setup := { okSetup with byres := true, bymol := true }

/-- `okSetup` with a snapshot atom count that contradicts the engine. -/
def mismatchSetup : Setup := { okSetup with natoms_snap := 3 }

/-- An error-free run writes these tables (computed below in the
witnesses): one row per probe, probe order preserved. -/
def okTables : List ResultRow × List ResultRow :=
  ([⟨1, (4, 5, 6), [(0, 0, 0), (0, 0, 0)]⟩], [⟨1, (4, 5, 6), [(0, 0, 0), (0, 0, 0)]⟩])

/-- The event trace of the error-free run `okSetup`. -/
def okTrace : List Event := regEvents ++ frameEvents ++ [Event.cmd "EXIT"]

theorem optMap_eq_some_map (f : α → Option β) (g : α → β) :
    ∀ l : List α, (∀ a ∈ l, f a = some (g a)) → optMap f l = some (l.map g)
  | [], _ => rfl
  | x :: xs, h => by
    have hx := h x (List.mem_cons_self x xs)
    have hxs := optMap_eq_some_map f g xs (fun a ha => h a (List.mem_cons_of_mem x ha))
    simp [optMap, hx, hxs]

theorem optMap_eq_none_of_mem (f : α → Option β) :
    ∀ l : List α, ∀ a ∈ l, f a = none → optMap f l = none
  | x :: xs, a, ha, hfa => by
    rcases List.mem_cons.1 ha with h | h
    · subst h
      cases hrest : optMap f xs <;> simp [optMap, hfa, hrest]
    · have hr := optMap_eq_none_of_mem f xs a h hfa
      cases hfx : f x <;> simp [optMap, hfx, hr]

theorem pyGet?_eq_some_getD (l : List α) (d : α) (i : Int) (h0 : 0 ≤ i)
    (h1 : i < (l.length : Int)) : pyGet? l i = some (l.getD i.toNat d) := by
  have hn : i.toNat < l.length := by omega
  rw [pyGet?, if_pos h0, List.get?_eq_get hn, List.getD_eq_get l d hn]

theorem pyGet?_eq_none_of_out (l : List α) (i : Int)
    (h : (l.length : Int) ≤ i ∨ i < -(l.length : Int)) : pyGet? l i = none := by
  rcases h with h | h
  · have h0 : 0 ≤ i := by omega
    rw [pyGet?, if_pos h0, List.get?_eq_none.2 (by omega)]
  · have h0 : ¬ 0 ≤ i := by omega
    have h2 : ¬ (-(l.length : Int) ≤ i) := by omega
    rw [pyGet?, if_neg h0, if_neg h2]

theorem vecSum_eq (l : List Vec3) :
    vecSum l = ((l.map (fun v => v.1)).sum, (l.map (fun v => v.2.1)).sum,
                (l.map (fun v => v.2.2)).sum) := by
  induction l with
  | nil => rfl
  | cons x xs ih =>
    show vecAdd x (vecSum xs) = _
    rw [ih]
    simp [vecAdd, List.sum_cons]

theorem field_sum_eq (row : List Vec3) (frag : List Int)
    (h : ∀ p ∈ frag, 1 ≤ p ∧ p ≤ (row.length : Int)) :
    field_at_probe_due_to_fragment row frag =
      some ((frag.map (fun p => (row.getD (p - 1).toNat (0, 0, 0)).1)).sum,
            (frag.map (fun p => (row.getD (p - 1).toNat (0, 0, 0)).2.1)).sum,
            (frag.map (fun p => (row.getD (p - 1).toNat (0, 0, 0)).2.2)).sum) := by
  have hm : optMap (fun p => pyGet? row (p - 1)) frag
      = some (frag.map (fun p => row.getD (p - 1).toNat (0, 0, 0))) := by
    apply optMap_eq_some_map
    intro p hp
    have hb := h p hp
    exact pyGet?_eq_some_getD row (0, 0, 0) (p - 1) (by omega) (by omega)
  rw [field_at_probe_due_to_fragment, hm, Option.map_some', vecSum_eq]
  simp only [List.map_map]
  rfl

/-- C4: for every probe tensor slice (of either the D-field or the
U-field tensor) and every fragment whose member pole numbers are in
range, the aggregated vector is the plain elementwise sum of the rows
`tensor[i, s, :]` over the fragment members, with no weighting or
normalization; an empty fragment yields the zero 3-vector for both
tensors. -/
theorem fragment_reduction_is_plain_sum (drow urow : List Vec3) (frag : List Int)
    (hd : ∀ p ∈ frag, 1 ≤ p ∧ p ≤ (drow.length : Int))
    (hu : ∀ p ∈ frag, 1 ≤ p ∧ p ≤ (urow.length : Int)) :
    field_at_probe_due_to_fragment drow frag =
      some ((frag.map (fun p => (drow.getD (p - 1).toNat (0, 0, 0)).1)).sum,
            (frag.map (fun p => (drow.getD (p - 1).toNat (0, 0, 0)).2.1)).sum,
            (frag.map (fun p => (drow.getD (p - 1).toNat (0, 0, 0)).2.2)).sum)
    ∧ field_at_probe_due_to_fragment urow frag =
      some ((frag.map (fun p => (urow.getD (p - 1).toNat (0, 0, 0)).1)).sum,
            (frag.map (fun p => (urow.getD (p - 1).toNat (0, 0, 0)).2.1)).sum,
            (frag.map (fun p => (urow.getD (p - 1).toNat (0, 0, 0)).2.2)).sum)
    ∧ field_at_probe_due_to_fragment drow [] = some (0, 0, 0)
    ∧ field_at_probe_due_to_fragment urow [] = some (0, 0, 0) :=
  ⟨field_sum_eq drow frag hd, field_sum_eq urow frag hu, rfl, rfl⟩

theorem fragment_reduction_is_plain_sum_witness :
    field_at_probe_due_to_fragment [(1, 2, 3), (4, 5, 6)] [1, 2] = some (5, 7, 9) :=
  ((fragment_reduction_is_plain_sum [(1, 2, 3), (4, 5, 6)] [(1, 2, 3), (4, 5, 6)] [1, 2]
      (by decide) (by decide)).1).trans (by decide)

/-- C2 (code bug): the row built for probe atom 1 of a two-atom frame
with converted coordinates atom1 = (1,2,3), atom2 = (4,5,6) stores
(4,5,6) — the coordinate of atom 2 — because line 259 indexes the
0-based coordinate array with the 1-based atom number. -/
theorem probe_coordinate_off_by_one :
    (buildRow [1] [(1, 2, 3), (4, 5, 6)] [[1], [2]] [[(0, 0, 0), (0, 0, 0)]] 0).map
        ResultRow.probeCoord = some ((4 : ℤ), (5 : ℤ), (6 : ℤ))
    ∧ (((4 : ℤ), (5 : ℤ), (6 : ℤ)) : Vec3) ≠ ((1 : ℤ), (2 : ℤ), (3 : ℤ)) := by
  decide

/-- C5: when both aggregation flags are requested the run aborts at
`parser.error` with an empty communicator trace: no `send_command`,
`send` or `receive` call is ever made. -/
theorem both_flags_abort_with_no_engine_io (s : Setup)
    (h1 : s.byres = true) (h2 : s.bymol = true) :
    mainRun s = ([], none) := by
  simp [mainRun, h1, h2]

theorem both_flags_abort_with_no_engine_io_witness :
    mainRun bothFlagsSetup = ([], none) :=
  both_flags_abort_with_no_engine_io bothFlagsSetup rfl rfl

/-- C10: the per-frame skip stride from the second file line: 6 fields
give stride 2, fewer give stride 1, and more than 6 also give stride 1;
the stride enters the run only through the one chunking of the snapshot
file that feeds the frame loop. -/
theorem skip_stride_from_second_line :
    skip_line 6 = 2 ∧ (∀ n, n < 6 → skip_line n = 1) ∧ (∀ n, 6 < n → skip_line n = 1)
    ∧ ∀ s : Setup, snapshotChunks s =
        chunkList (s.natoms_snap + skip_line s.secondLineLen)
          (s.fileBody.drop (skip_line s.secondLineLen)).length
          (s.fileBody.drop (skip_line s.secondLineLen)) := by
  refine ⟨rfl, ?_, ?_, fun s => rfl⟩
  · intro n hn
    rw [skip_line, if_neg (by omega)]
  · intro n hn
    rw [skip_line, if_neg (by omega)]

theorem skip_stride_from_second_line_witness :
    skip_line 6 = 2 ∧ skip_line 5 = 1 ∧ skip_line 7 = 1 ∧
    snapshotChunks okSetup = chunkList (okSetup.natoms_snap + skip_line okSetup.secondLineLen)
      (okSetup.fileBody.drop (skip_line okSetup.secondLineLen)).length
      (okSetup.fileBody.drop (skip_line okSetup.secondLineLen)) :=
  ⟨skip_stride_from_second_line.1, skip_stride_from_second_line.2.1 5 (by omega),
   skip_stride_from_second_line.2.2.1 7 (by omega), skip_stride_from_second_line.2.2.2 okSetup⟩

/-- C3 (counterexample): probe atom identifier 0 is outside the valid
range 1..natoms (here natoms = 1), yet resolution does not fail — Python
negative indexing silently resolves `ipoles[-1]`, yielding pole 5. -/
theorem probe_resolution_claim_false :
    probe_pole_indices [0] [5] = some [5] ∧ (0 : Int) < 1 := by
  decide

/-- C3 (amended): probe identifiers greater than the atom count, or
smaller than `1 - natoms`, make resolution raise an `IndexError`; the
run then aborts with the handshake and all five information queries
already on the wire (engine I/O has occurred) but before probe
registration — no `>NPROBES`, `>PROBES` or `>COORDS` command is ever
sent.  (Identifiers in `[1 - natoms, 0]` are accepted silently; see the
counterexample.) -/
theorem out_of_range_probe_fails_after_info_queries (s : Setup)
    (hflag : (s.byres && s.bymol) = false)
    (hname : s.engineName = "NO_EWALD")
    (hbad : ∃ p ∈ s.probes, (s.ipoles.length : Int) < p ∨ p < 1 - (s.ipoles.length : Int)) :
    mainRun s = (preRegEvents, none)
    ∧ Event.cmd "<NATOMS" ∈ preRegEvents
    ∧ Event.cmd ">NPROBES" ∉ preRegEvents
    ∧ Event.cmd ">PROBES" ∉ preRegEvents
    ∧ Event.cmd ">COORDS" ∉ preRegEvents := by
  obtain ⟨p, hp, hout⟩ := hbad
  have hnone : probe_pole_indices s.probes s.ipoles = none :=
    optMap_eq_none_of_mem _ s.probes p hp
      (pyGet?_eq_none_of_out s.ipoles (p - 1) (by omega))
  refine ⟨?_, by decide, by decide, by decide, by decide⟩
  simp [mainRun, hflag, hname, hnone]

theorem out_of_range_probe_fails_after_info_queries_witness :
    mainRun badProbeSetup = (preRegEvents, none)
    ∧ Event.cmd "<NATOMS" ∈ preRegEvents
    ∧ Event.cmd ">NPROBES" ∉ preRegEvents
    ∧ Event.cmd ">PROBES" ∉ preRegEvents
    ∧ Event.cmd ">COORDS" ∉ preRegEvents :=
  out_of_range_probe_fails_after_info_queries badProbeSetup rfl rfl
    ⟨99, by decide, by decide⟩

/-- C6: whenever the snapshot file's declared atom count differs from
the engine's reported atom count, the run raises before the frame loop:
the result is an error and no `>COORDS` command is ever sent, on every
control path. -/
theorem natoms_mismatch_aborts_before_coords (s : Setup)
    (h : s.natoms_snap ≠ s.natoms_engine) :
    (mainRun s).2 = none ∧ Event.cmd ">COORDS" ∉ (mainRun s).1 := by
  have hcoords : ∀ t : List Event, mainRun s = (t, none) →
      Event.cmd ">COORDS" ∉ t →
      (mainRun s).2 = none ∧ Event.cmd ">COORDS" ∉ (mainRun s).1 := by
    intro t ht hm
    rw [ht]
    exact ⟨rfl, hm⟩
  by_cases hf : (s.byres && s.bymol) = true
  · exact hcoords [] (by simp [mainRun, hf]) (by decide)
  · by_cases hn : s.engineName = "NO_EWALD"
    · cases hpp : probe_pole_indices s.probes s.ipoles with
      | none => exact hcoords preRegEvents (by simp [mainRun, hf, hn, hpp]) (by decide)
      | some pp =>
        cases hap : atoms_pole_numbers s with
        | none => exact hcoords preRegEvents (by simp [mainRun, hf, hn, hpp, hap]) (by decide)
        | some frags =>
          exact hcoords regEvents (by simp [mainRun, hf, hn, hpp, hap, h]) (by decide)
    · exact hcoords handshakeEvents (by simp [mainRun, hf, hn]) (by decide)

theorem natoms_mismatch_aborts_before_coords_witness :
    (mainRun mismatchSetup).2 = none ∧ Event.cmd ">COORDS" ∉ (mainRun mismatchSetup).1 :=
  natoms_mismatch_aborts_before_coords mismatchSetup (by decide)

/-- C7: in atom aggregation mode, with `ipoles` of the engine-reported
length, the resolver yields exactly `natoms` fragments, the fragment id
list is 1..natoms in atom order, and the fragment of atom `i`
(1-indexed) is the singleton `[ipoles[i-1]]`. -/
theorem atom_mode_singleton_fragments (s : Setup)
    (h1 : s.bymol = false) (h2 : s.byres = false)
    (hlen : s.ipoles.length = s.natoms_engine) :
    ∃ frags, atoms_pole_numbers s = some frags ∧
      frags.length = s.natoms_engine ∧
      from_fragment s = (List.range s.natoms_engine).map (fun k => (k : Int) + 1) ∧
      ∀ i, 1 ≤ i → i ≤ s.natoms_engine → frags.getD (i - 1) [] = [s.ipoles.getD (i - 1) 0] := by
  refine ⟨s.ipoles.map (fun x => [x]), ?_, ?_, ?_, ?_⟩
  · simp [atoms_pole_numbers, h1, h2]
  · simp [hlen]
  · simp [from_fragment, h1, h2]
  · intro i hi1 hi2
    have hlt : i - 1 < s.ipoles.length := by omega
    have hlt2 : i - 1 < (s.ipoles.map (fun x => [x])).length := by simpa using hlt
    rw [List.getD_eq_get _ _ hlt2, List.getD_eq_get _ _ hlt, List.get_map]

theorem atom_mode_singleton_fragments_witness :
    ∃ frags, atoms_pole_numbers okSetup = some frags ∧
      frags.length = okSetup.natoms_engine ∧
      from_fragment okSetup = (List.range okSetup.natoms_engine).map (fun k => (k : Int) + 1) ∧
      ∀ i, 1 ≤ i → i ≤ okSetup.natoms_engine →
        frags.getD (i - 1) [] = [okSetup.ipoles.getD (i - 1) 0] :=
  atom_mode_singleton_fragments okSetup rfl rfl rfl

theorem frameLoop_events (s : Setup) (frags : List (List Int)) :
    ∀ (chunks : List (List (List ℤ))) (k : Nat)
      (acc : Option (List ResultRow × List ResultRow)) (ev : List Event)
      (r : Option (List ResultRow × List ResultRow)),
      frameLoop s frags chunks k acc = (ev, some r) →
      ev = (List.replicate chunks.length frameEvents).flatten
  | [], k, acc, ev, r, h => by
    simp only [frameLoop] at h
    rw [Prod.mk.injEq] at h
    simp [h.1.symm]
  | chunk :: rest, k, acc, ev, r, h => by
    simp only [frameLoop] at h
    cases hft : frameTables s frags chunk k with
    | none =>
      simp only [hft] at h
      exact absurd h (by simp)
    | some tabs =>
      simp only [hft] at h
      rcases hfl : frameLoop s frags rest (k + 1) (some tabs) with ⟨lev, res⟩
      simp only [hfl] at h
      rw [Prod.mk.injEq] at h
      obtain ⟨h1, h2⟩ := h
      cases res with
      | none => exact Option.noConfusion h2
      | some r2 =>
        have ih := frameLoop_events s frags rest (k + 1) (some tabs) lev r2 hfl
        rw [← h1, ih, List.length_cons, List.replicate_succ, List.flatten_cons]

theorem frameLoop_last (s : Setup) (frags : List (List Int)) :
    ∀ (chunks : List (List (List ℤ))) (k : Nat)
      (acc : Option (List ResultRow × List ResultRow)) (ev : List Event)
      (t : List ResultRow × List ResultRow),
      frameLoop s frags chunks k acc = (ev, some (some t)) →
      (chunks = [] ∧ acc = some t) ∨
      ∃ hne : chunks ≠ [],
        frameTables s frags (chunks.getLast hne) (k + chunks.length - 1) = some t
  | [], k, acc, ev, t, h => by
    simp only [frameLoop] at h
    rw [Prod.mk.injEq] at h
    exact Or.inl ⟨rfl, Option.some.inj h.2⟩
  | chunk :: rest, k, acc, ev, t, h => by
    simp only [frameLoop] at h
    cases hft : frameTables s frags chunk k with
    | none =>
      simp only [hft] at h
      exact absurd h (by simp)
    | some tabs =>
      simp only [hft] at h
      rcases hfl : frameLoop s frags rest (k + 1) (some tabs) with ⟨lev, res⟩
      simp only [hfl] at h
      rw [Prod.mk.injEq] at h
      obtain ⟨h1, h2⟩ := h
      subst h2
      rcases frameLoop_last s frags rest (k + 1) (some tabs) lev t hfl with ⟨hnil, hacc⟩ | ⟨hne, hlast⟩
      · subst hnil
        have htt : tabs = t := Option.some.inj hacc
        subst htt
        refine Or.inr ⟨by simp, ?_⟩
        simpa using hft
      · refine Or.inr ⟨by simp, ?_⟩
        have hgl : (chunk :: rest).getLast (by simp) = rest.getLast hne := List.getLast_cons hne
        rw [hgl]
        have hk : k + (chunk :: rest).length - 1 = k + 1 + rest.length - 1 := by
          simp [List.length_cons]
        rw [hk]
        exact hlast

theorem mainRun_success (s : Setup) (ev : List Event)
    (tabs : List ResultRow × List ResultRow) (h : mainRun s = (ev, some tabs)) :
    ∃ frags lev, atoms_pole_numbers s = some frags ∧
      frameLoop s frags (snapshotChunks s) 0 none = (lev, some (some tabs)) ∧
      ev = regEvents ++ lev ++ [Event.cmd "EXIT"] := by
  by_cases hf : (s.byres && s.bymol) = true
  · simp [mainRun, hf] at h
  · by_cases hn : s.engineName = "NO_EWALD"
    · cases hpp : probe_pole_indices s.probes s.ipoles with
      | none => simp [mainRun, hf, hn, hpp] at h
      | some pp =>
        cases hap : atoms_pole_numbers s with
        | none => simp [mainRun, hf, hn, hpp, hap] at h
        | some frags =>
          by_cases hmm : s.natoms_snap ≠ s.natoms_engine
          · simp [mainRun, hf, hn, hpp, hap, hmm] at h
          · rw [not_ne_iff] at hmm
            rcases hfl : frameLoop s frags (snapshotChunks s) 0 none with ⟨lev, res⟩
            cases res with
            | none => simp [mainRun, hf, hn, hpp, hap, hmm, hfl] at h
            | some acc =>
              cases acc with
              | none => simp [mainRun, hf, hn, hpp, hap, hmm, hfl] at h
              | some t =>
                have hred : mainRun s = (regEvents ++ lev ++ [Event.cmd "EXIT"], some t) := by
                  simp [mainRun, hf, hn, hpp, hap, hmm, hfl]
                rw [hred] at h
                rw [Prod.mk.injEq, Option.some.injEq] at h
                obtain ⟨h1, h2⟩ := h
                subst h2
                exact ⟨frags, lev, rfl, hfl, h1.symm⟩
    · simp [mainRun, hf, hn] at h

/-- C1: whenever a run completes (the tables are written), they are
exactly the tables computed from the last frame of the trajectory —
the per-frame tables are rebuilt each iteration, so earlier frames
leave no rows. -/
theorem output_tables_from_last_frame_only (s : Setup) (ev : List Event)
    (tabs : List ResultRow × List ResultRow) (h : mainRun s = (ev, some tabs)) :
    ∃ frags, atoms_pole_numbers s = some frags ∧
      ∃ hne : snapshotChunks s ≠ [],
        frameTables s frags ((snapshotChunks s).getLast hne)
          ((snapshotChunks s).length - 1) = some tabs := by
  obtain ⟨frags, lev, hap, hfl, _⟩ := mainRun_success s ev tabs h
  rcases frameLoop_last s frags (snapshotChunks s) 0 none lev tabs hfl with ⟨_, hacc⟩ | ⟨hne, hlast⟩
  · exact Option.noConfusion hacc
  · refine ⟨frags, hap, hne, ?_⟩
    simpa using hlast

theorem output_tables_from_last_frame_only_witness :
    ∃ frags, atoms_pole_numbers okSetup = some frags ∧
      ∃ hne : snapshotChunks okSetup ≠ [],
        frameTables okSetup frags ((snapshotChunks okSetup).getLast hne)
          ((snapshotChunks okSetup).length - 1) = some okTables :=
  output_tables_from_last_frame_only okSetup okTrace okTables (by decide)

theorem count_flatten_replicate (n : Nat) (l : List Event) (a : Event) :
    ((List.replicate n l).flatten).count a = n * l.count a := by
  induction n with
  | zero => simp
  | succ m ih =>
    rw [List.replicate_succ, List.flatten_cons, List.count_append, ih]
    ring

/-- C9: on every completed run the communicator trace is exactly the
handshake, the five information queries, then `>NPROBES` and `>PROBES`
(each exactly once, with their payload sends, before any frame), then
for each frame in order `>COORDS`, `<DFIELD`, `<UFIELD`, and finally
`EXIT`. -/
theorem probe_registration_and_frame_command_order (s : Setup) (ev : List Event)
    (tabs : List ResultRow × List ResultRow) (h : mainRun s = (ev, some tabs)) :
    ev = regEvents ++ (List.replicate (snapshotChunks s).length frameEvents).flatten
          ++ [Event.cmd "EXIT"]
    ∧ ev.count (Event.cmd ">NPROBES") = 1
    ∧ ev.count (Event.cmd ">PROBES") = 1 := by
  obtain ⟨frags, lev, hap, hfl, hev⟩ := mainRun_success s ev tabs h
  have hlev : lev = (List.replicate (snapshotChunks s).length frameEvents).flatten :=
    frameLoop_events s frags (snapshotChunks s) 0 none lev (some tabs) hfl
  subst hlev
  refine ⟨hev, ?_, ?_⟩
  · rw [hev, List.count_append, List.count_append, count_flatten_replicate]
    have e1 : regEvents.count (Event.cmd ">NPROBES") = 1 := by decide
    have e2 : frameEvents.count (Event.cmd ">NPROBES") = 0 := by decide
    have e3 : List.count (Event.cmd ">NPROBES") [Event.cmd "EXIT"] = 0 := by decide
    rw [e1, e2, e3]
    ring
  · rw [hev, List.count_append, List.count_append, count_flatten_replicate]
    have e1 : regEvents.count (Event.cmd ">PROBES") = 1 := by decide
    have e2 : frameEvents.count (Event.cmd ">PROBES") = 0 := by decide
    have e3 : List.count (Event.cmd ">PROBES") [Event.cmd "EXIT"] = 0 := by decide
    rw [e1, e2, e3]
    ring

theorem probe_registration_and_frame_command_order_witness :
    okTrace = regEvents ++ (List.replicate (snapshotChunks okSetup).length frameEvents).flatten
          ++ [Event.cmd "EXIT"]
    ∧ okTrace.count (Event.cmd ">NPROBES") = 1
    ∧ okTrace.count (Event.cmd ">PROBES") = 1 :=
  probe_registration_and_frame_command_order okSetup okTrace okTables (by decide)

theorem flatten_map_if_perm (k : Int) (x : α) (F : Int → List α) :
    ∀ us : List Int, us.Nodup → k ∈ us →
      ((us.map (fun u => if k = u then x :: F u else F u)).flatten).Perm
        (x :: (us.map F).flatten)
  | u :: us, hnd, hmem => by
    simp only [List.map_cons, List.flatten_cons]
    rcases List.mem_cons.1 hmem with h | h
    · subst h
      have hk : k ∉ us := (List.nodup_cons.1 hnd).1
      have hcong : us.map (fun u => if k = u then x :: F u else F u) = us.map F := by
        apply List.map_congr_left
        intro b hb
        rw [if_neg]
        intro hkb
        exact hk (hkb ▸ hb)
      rw [if_pos rfl, hcong]
      exact List.Perm.refl _
    · have hne : k ≠ u := fun hku => (List.nodup_cons.1 hnd).1 (hku ▸ h)
      rw [if_neg hne]
      have ih := flatten_map_if_perm k x F us (List.nodup_cons.1 hnd).2 h
      exact (List.Perm.append_left (F u) ih).trans List.perm_middle

theorem flatten_filter_perm (key : Nat → Int) :
    ∀ (l : List Nat) (us : List Int), us.Nodup → (∀ a ∈ l, key a ∈ us) →
      ((us.map (fun u => l.filter (fun a => decide (key a = u)))).flatten).Perm l
  | [], us, _, _ => by
    rw [List.perm_nil, List.flatten_eq_nil_iff]
    intro t ht
    rcases List.mem_map.1 ht with ⟨u, _, hu⟩
    rw [← hu, List.filter_nil]
  | a :: l, us, hnd, hc => by
    have hcong : us.map (fun u => (a :: l).filter (fun b => decide (key b = u)))
        = us.map (fun u => if key a = u then a :: l.filter (fun b => decide (key b = u))
                           else l.filter (fun b => decide (key b = u))) := by
      apply List.map_congr_left
      intro u _
      rw [List.filter_cons]
      by_cases hk : key a = u
      · rw [if_pos (by simp [hk]), if_pos hk]
      · rw [if_neg (by simp [hk]), if_neg hk]
    rw [hcong]
    have h1 := flatten_map_if_perm (key a) a
      (fun u => l.filter (fun b => decide (key b = u))) us hnd (hc a (List.mem_cons_self a l))
    have h2 := flatten_filter_perm key l us hnd (fun b hb => hc b (List.mem_cons_of_mem a hb))
    exact h1.trans (List.Perm.cons a h2)

theorem map_getD_range (l : List α) (d : α) :
    (List.range l.length).map (fun i => l.getD i d) = l := by
  induction l with
  | nil => rfl
  | cons x xs ih =>
    rw [List.length_cons, List.range_succ_eq_map, List.map_cons, List.map_map]
    have hc : ((fun i => (x :: xs).getD i d) ∘ Nat.succ) = (fun i => xs.getD i d) := by
      funext i
      simp [Function.comp, List.getD_cons_succ]
    rw [hc, ih]
    rfl

theorem mem_fragmentAtoms (ids : List Int) (u : Int) (a : Nat) :
    a + 1 ∈ fragmentAtoms ids u ↔ a < ids.length ∧ ids.getD a 0 = u := by
  simp only [fragmentAtoms, List.mem_map, List.mem_filter, List.mem_range,
    decide_eq_true_eq]
  constructor
  · rintro ⟨b, ⟨hb1, hb2⟩, hba⟩
    have hb : b = a := by omega
    subst hb
    exact ⟨hb1, hb2⟩
  · rintro ⟨h1, h2⟩
    exact ⟨a, ⟨h1, h2⟩, rfl⟩

theorem npUnique_nodup (l : List Int) : (npUnique l).Nodup :=
  ((List.perm_insertionSort _ l.dedup).nodup_iff).2 (List.nodup_dedup l)

theorem npUnique_sorted (l : List Int) : (npUnique l).Sorted (fun a b => a ≤ b) :=
  List.sorted_insertionSort _ _

theorem mem_npUnique (l : List Int) (u : Int) : u ∈ npUnique l ↔ u ∈ l := by
  rw [npUnique, (List.perm_insertionSort _ l.dedup).mem_iff, List.mem_dedup]

theorem getD_mem_of_lt (l : List Int) (a : Nat) (h : a < l.length) : l.getD a 0 ∈ l := by
  rw [List.getD_eq_get _ _ h]
  exact List.get_mem l a h

theorem molFragments_eq (ids ipoles : List Int) (h : ids.length = ipoles.length) :
    molFragments ids ipoles =
      some ((npUnique ids).map (fun u => (fragmentAtoms ids u).map
        (fun a => ipoles.getD (a - 1) 0))) := by
  apply optMap_eq_some_map
  intro u _
  apply optMap_eq_some_map
  intro a ha
  have hbound : 1 ≤ a ∧ a - 1 < ids.length := by
    simp only [fragmentAtoms, List.mem_map, List.mem_filter, List.mem_range] at ha
    obtain ⟨b, ⟨hb1, _⟩, hba⟩ := ha
    omega
  have hg := pyGet?_eq_some_getD ipoles 0 ((a : Int) - 1) (by omega) (by omega)
  rw [hg]
  have ht : ((a : Int) - 1).toNat = a - 1 := by omega
  rw [ht]

/-- C8: in molecule or residue aggregation mode, for every per-atom
membership-id array (ids need not be contiguous or sorted) and a
site-index array of matching length, the resolver produces one fragment
per distinct membership id, ordered by sorted unique id, and the
fragments partition the atoms' site indices: the member lists
collectively contain every atom's site index exactly once, and every
atom belongs to exactly one fragment's atom group. -/
theorem mol_mode_fragments_partition (ids ipoles : List Int)
    (h : ids.length = ipoles.length) : molPartitionSpec ids ipoles := by
  refine ⟨(npUnique ids).map (fun u => (fragmentAtoms ids u).map
      (fun a => ipoles.getD (a - 1) 0)),
    molFragments_eq ids ipoles h, by simp, ?_, npUnique_sorted ids, npUnique_nodup ids,
    fun u => mem_npUnique ids u, ?_⟩
  · have hc : ∀ a ∈ List.range ids.length, ids.getD a 0 ∈ npUnique ids := by
      intro a ha
      exact (mem_npUnique ids _).2 (getD_mem_of_lt ids a (List.mem_range.1 ha))
    have hstep := flatten_filter_perm (fun a => ids.getD a 0) (List.range ids.length)
      (npUnique ids) (npUnique_nodup ids) hc
    have e1 : ((npUnique ids).map (fun u => (fragmentAtoms ids u).map
        (fun a => ipoles.getD (a - 1) 0))).flatten
        = (((npUnique ids).map (fun u => fragmentAtoms ids u)).flatten).map
            (fun a => ipoles.getD (a - 1) 0) := by
      rw [List.map_flatten, List.map_map]
      rfl
    have e2 : ((npUnique ids).map (fun u => fragmentAtoms ids u)).flatten
        = (((npUnique ids).map (fun u => (List.range ids.length).filter
            (fun a => decide (ids.getD a 0 = u)))).flatten).map (fun a => a + 1) := by
      rw [List.map_flatten, List.map_map]
      rfl
    rw [e1, e2]
    have hp2 := (hstep.map (fun a => a + 1)).map (fun a => ipoles.getD (a - 1) 0)
    apply hp2.trans
    rw [List.map_map]
    have hco : ((fun a => ipoles.getD (a - 1) 0) ∘ fun a => a + 1)
        = fun i => ipoles.getD i 0 := by
      funext a
      simp
    rw [hco, h, map_getD_range]
  · intro a ha
    have hmem : ids.getD a 0 ∈ npUnique ids :=
      (mem_npUnique ids _).2 (getD_mem_of_lt ids a ha)
    obtain ⟨⟨j, hj⟩, hget⟩ := List.mem_iff_get.1 hmem
    refine ⟨j, ⟨hj, ?_⟩, ?_⟩
    · rw [mem_fragmentAtoms]
      exact ⟨ha, hget.symm⟩
    · rintro y ⟨hy, hymem⟩
      rw [mem_fragmentAtoms] at hymem
      have heq : (npUnique ids).get ⟨y, hy⟩ = (npUnique ids).get ⟨j, hj⟩ :=
        hymem.2.symm.trans hget.symm
      have hfin := ((npUnique_nodup ids).get_inj_iff).1 heq
      exact congrArg Fin.val hfin

theorem mol_mode_fragments_partition_witness : molPartitionSpec [2, 1, 2] [10, 20, 30] :=
  mol_mode_fragments_partition [2, 1, 2] [10, 20, 30] (by decide)
